import Mathlib

/-
Shallow embedding of the DramaGPT backend core
(src/backend/kb_rag_engine.py, src/backend/qdrant_manager.py).

Python strings are modelled as Lean `String` / `List Char`; floats as `ℚ`;
Python dicts with a fixed key set as structures with `Option` fields for keys
that may be absent; raised exceptions as `Except String`.  External
collaborators (embedding model, cross-encoder, Qdrant store, LLM agent) are
parameters of the embedded functions, mirroring the spec's black-box
treatment of them.
-/

/-! ## Python string primitives -/

/-- Python-style prefix test: `matchesAt p l` is true when `p` is a prefix of `l`. -/
def matchesAt : List Char → List Char → Bool
  | [], _ => true
  | _ :: _, [] => false
  | p :: ps, c :: cs => p = c && matchesAt ps cs

/-- Python `pat in s` substring containment on character lists. -/
def containsSub (pat : List Char) : List Char → Bool
  | [] => matchesAt pat []
  | c :: t => matchesAt pat (c :: t) || containsSub pat t

/-- Python `pat in s` on strings. -/
def pyIn (pat s : String) : Bool := containsSub pat.toList s.toList

/-- ASCII lowercase mapping of one character (Python `str.lower`; every
string fed to it in this code is ASCII). -/
def charToLower (c : Char) : Char :=
  if c.toNat ≥ 65 && c.toNat ≤ 90 then Char.ofNat (c.toNat + 32) else c

/-- ASCII uppercase mapping of one character (Python `str.upper`). -/
def charToUpper (c : Char) : Char :=
  if c.toNat ≥ 97 && c.toNat ≤ 122 then Char.ofNat (c.toNat - 32) else c

/-- Python `s.lower()`. -/
def pyLower (s : String) : String := String.mk (s.toList.map charToLower)

/-- Python `s.upper()`. -/
def pyUpper (s : String) : String := String.mk (s.toList.map charToUpper)

/-- Fuelled core of Python `s.count(pat)` (non-overlapping, left to right).
For a non-empty pattern, fuel equal to the length of the scanned list is
exact, since every step consumes at least one character. -/
def countOccF (p : List Char) : ℕ → List Char → ℕ
  | 0, _ => 0
  | _, [] => 0
  | fuel + 1, c :: t =>
    if matchesAt p (c :: t) then 1 + countOccF p fuel ((c :: t).drop p.length)
    else countOccF p fuel t

/-- Python `s.count(pat)` for a non-empty pattern. -/
def countOcc (pat s : String) : ℕ := countOccF pat.toList s.toList.length s.toList

/-! ## `KnowledgeBaseRAG._remove_decimals_from_response`
(kb_rag_engine.py lines 83-103): `re.sub(r'\b(\d+)\.\d+\b', r'\1', response)`.

The regex is embedded as a left-to-right scanner with Python `re` semantics:
`\b` is a boundary between a word character (`[A-Za-z0-9_]`, via
`Char.isAlphanum`) and a non-word character or string edge; `\d+` is a maximal
digit run (greediness with the literal `.` and the trailing `\b` never
requires backtracking to a shorter run, because every shorter run is followed
by a digit, which is a word character).  After a match the scan resumes at
the first character past the match. -/

/-- Word character for the regex boundary `\b` (ASCII `\w`). -/
def isWordChar (c : Char) : Bool := c.isAlphanum || c = '_'

/-- Attempt to match `(\d+)\.\d+\b` at the head of `l` (the boundary before
the first digit is checked by the caller).  Returns the captured integer-part
digits and the remainder of the input after the match. -/
def tryNumMatch (l : List Char) : Option (List Char × List Char) :=
  let s1 := l.span Char.isDigit
  match s1.1 with
  | [] => none
  | _ :: _ =>
    match s1.2 with
    | '.' :: r2 =>
      let s2 := r2.span Char.isDigit
      match s2.1 with
      | [] => none
      | _ :: _ =>
        match s2.2 with
        | [] => some (s1.1, [])
        | c :: r3 => if isWordChar c then none else some (s1.1, c :: r3)
    | _ => none

/-- Fuelled scanner for `re.sub(r'\b(\d+)\.\d+\b', r'\1', ·)`.  The Bool
argument records whether the previous character was a word character (false
at the start of the string).  Fuel bounds the recursion; fuel equal to the
input length is always sufficient because every step consumes at least one
character. -/
def scanDecimalsF : ℕ → Bool → List Char → List Char
  | 0, _, l => l
  | _, _, [] => []
  | fuel + 1, prevW, c :: t =>
    if !prevW && c.isDigit then
      match tryNumMatch (c :: t) with
      | some (d1, rest) => d1 ++ scanDecimalsF fuel true rest
      | none => c :: scanDecimalsF fuel (isWordChar c) t
    else c :: scanDecimalsF fuel (isWordChar c) t

/-- `KnowledgeBaseRAG._remove_decimals_from_response`. -/
def remove_decimals_from_response (response : String) : String :=
  String.mk (scanDecimalsF response.toList.length false response.toList)

/-! ## `KnowledgeBaseRAG._classify_error_type` (kb_rag_engine.py lines 105-167) -/

/-- The dict returned by `_classify_error_type`. -/
structure ErrorInfo where
  error_type : String
  should_retry : Bool
  wait_seconds : ℕ
  user_message : String
  deriving DecidableEq

/-- `KnowledgeBaseRAG._classify_error_type`.  The argument is `str(error)`. -/
def classify_error_type (error : String) : ErrorInfo :=
  let error_str := pyLower error
  if ["iteration limit", "time limit", "timed out", "timeout"].any
      (fun p => pyIn p error_str) then
    ⟨"timeout", true, 0,
      "Query taking longer than expected, retrying with extended timeout..."⟩
  else if ["could not parse", "parsing error", "invalid format"].any
      (fun p => pyIn p error_str) then
    ⟨"parsing", true, 2, "Reformatting query, please wait..."⟩
  else if ["rate limit", "429", "too many requests"].any
      (fun p => pyIn p error_str) then
    ⟨"rate_limit", true, 10, "API rate limit reached, waiting before retry..."⟩
  else if ["syntax error", "does not exist", "permission denied"].any
      (fun p => pyIn p error_str) then
    ⟨"database", false, 0, "Database query error"⟩
  else
    ⟨"other", true, 2, "Unexpected error, retrying..."⟩

/-- Modelled from the spec's section 4.7 table: ordered pattern groups over
the lowercased error text, first match wins, yielding (kind, retryable,
base wait). -/
def errorTableSpec : List (List String × (String × Bool × ℕ)) :=
  [ (["iteration limit", "time limit", "timed out", "timeout"], ("timeout", true, 0)),
    (["could not parse", "parsing error", "invalid format"], ("parsing", true, 2)),
    (["rate limit", "429", "too many requests"], ("rate_limit", true, 10)),
    (["syntax error", "does not exist", "permission denied"], ("database", false, 0)) ]

/-- First-match-wins evaluation of the spec's classification table. -/
def firstMatchSpec (text : String) : List (List String × (String × Bool × ℕ)) →
    (String × Bool × ℕ)
  | [] => ("other", true, 2)
  | (pats, out) :: rest =>
    if pats.any (fun p => pyIn p text) then out else firstMatchSpec text rest

/-- Modelled from the spec: `classify(error)` projected to (kind, retryable,
base wait). -/
def classifyErrorSpec (error : String) : String × Bool × ℕ :=
  firstMatchSpec (pyLower error) errorTableSpec

/-! ## `KnowledgeBaseRAG._classify_query_complexity` (kb_rag_engine.py lines 169-196) -/

/-- `KnowledgeBaseRAG._classify_query_complexity`. -/
def classify_query_complexity (query : String) : String :=
  let query_upper := pyUpper query
  let s1 : ℕ := if pyIn "JOIN" query_upper then 2 else 0
  let s2 : ℕ := if pyIn "GROUP BY" query_upper then 1 else 0
  let s3 : ℕ := if pyIn "HAVING" query_upper then 2 else 0
  let s4 : ℕ := if countOcc "SELECT" query_upper > 1 then 3 else 0
  let s5 : ℕ := if ["last", "previous", "year", "month"].any
      (fun w => pyIn w query) then 1 else 0
  let complexity_score := s1 + s2 + s3 + s4 + s5
  if complexity_score ≤ 2 then "simple"
  else if complexity_score ≤ 5 then "moderate"
  else "complex"

/-- Modelled from the spec (section 4.6): the additive complexity score, +2
if the query implies a join, +1 for grouping, +2 for a having-clause-like
constraint, +3 if nested-query language is implied, +1 for temporal
keywords. -/
def complexityScoreSpec (query : String) : ℕ :=
  (if pyIn "JOIN" (pyUpper query) then 2 else 0)
  + (if pyIn "GROUP BY" (pyUpper query) then 1 else 0)
  + (if pyIn "HAVING" (pyUpper query) then 2 else 0)
  + (if countOcc "SELECT" (pyUpper query) > 1 then 3 else 0)
  + (if ["last", "previous", "year", "month"].any (fun w => pyIn w query)
     then 1 else 0)

/-! ## SQL-agent retry loop inside `KnowledgeBaseRAG.query_kb`
(kb_rag_engine.py lines 32-52 and 359-479) -/

/-- One entry of `TIMEOUT_CONFIGS` (kb_rag_engine.py lines 33-46). -/
structure TimeoutConfig where
  max_iterations : ℕ
  max_execution_time : ℕ
  deriving DecidableEq

/-- `TIMEOUT_CONFIGS` keyed by complexity tier. -/
def TIMEOUT_CONFIGS (tier : String) : TimeoutConfig :=
  if tier = "simple" then ⟨15, 90⟩
  else if tier = "moderate" then ⟨25, 150⟩
  else ⟨35, 240⟩

/-- `RETRY_CONFIG['max_retries']` (kb_rag_engine.py line 50). -/
def retryConfigMaxRetries : ℕ := 3

/-- `RETRY_CONFIG['backoff_multiplier']` (kb_rag_engine.py line 51). -/
def retryConfigBackoffMultiplier : ℕ := 2

/-- A successful `sql_agent.invoke` result: the `output` text and the
`tool_input` strings extracted from `intermediate_steps`. -/
structure AgentSuccess where
  output : String
  tool_inputs : List String
  deriving DecidableEq

/-- The state of the retry loop of `query_kb` when the `while` loop exits,
plus ghost instrumentation: `attemptsMade` counts how many times the agent
was invoked and `waits` records each `time.sleep` duration, in order. -/
structure LoopState where
  answer : String
  sql_queries : List String
  agent_error : Option String
  attempt : ℕ
  attemptsMade : ℕ
  waits : List ℕ
  deriving DecidableEq

/-- The body of `while attempt < max_retries` (kb_rag_engine.py lines
375-435).  `agent` maps the `TimeoutConfig` an attempt is created with to
the outcome of `sql_agent.invoke`; the attempt index selects the config
(tier config on attempt 0, the `complex` config on every retry).  Fuel is
`max_retries - attempt`, so the structural recursion mirrors the loop
condition exactly. -/
def retryLoopAux (agent : ℕ → TimeoutConfig → Except String AgentSuccess)
    (complexity : String) :
    ℕ → ℕ → ℕ → List ℕ → Option String → LoopState
  | 0, attempt, made, waits, err => ⟨"", [], err, attempt, made, waits⟩
  | fuel + 1, attempt, made, waits, err =>
    let config := if attempt = 0 then TIMEOUT_CONFIGS complexity
                  else TIMEOUT_CONFIGS "complex"
    match agent attempt config with
    | .ok res =>
      ⟨remove_decimals_from_response res.output, res.tool_inputs, err,
        attempt, made + 1, waits⟩
    | .error e =>
      let error_info := classify_error_type e
      if !error_info.should_retry || attempt = retryConfigMaxRetries - 1 then
        ⟨"", [], some e, attempt, made + 1, waits⟩
      else
        retryLoopAux agent complexity fuel (attempt + 1) (made + 1)
          (waits ++ [error_info.wait_seconds + retryConfigBackoffMultiplier ^ attempt])
          (some e)

/-- The retry loop of `query_kb`, started with `attempt = 0` and fuel
`max_retries`. -/
def runRetryLoop (agent : ℕ → TimeoutConfig → Except String AgentSuccess)
    (complexity : String) : LoopState :=
  retryLoopAux agent complexity retryConfigMaxRetries 0 0 [] none

/-- One entry of `tables_info` (kb_rag_engine.py lines 244-250). -/
structure TableInfo where
  table_name : String
  filename : String
  deriving DecidableEq

/-- The `tables_used` extraction of `query_kb` (kb_rag_engine.py lines
449-457): a table's filename is appended when its `table_name` occurs in
`sql_query.lower()`, deduplicated by filename. -/
def tablesUsed (sql_queries : List String) (tables_info : List TableInfo) :
    List String :=
  sql_queries.foldl
    (fun acc sql_query =>
      tables_info.foldl
        (fun acc2 table_info =>
          if pyIn table_info.table_name (pyLower sql_query) then
            if table_info.filename ∈ acc2 then acc2
            else acc2 ++ [table_info.filename]
          else acc2)
        acc)
    []

/-- The response dict of the SQL-agent branch of `query_kb`, with the keys
that distinguish the failure shape from the normal shape. -/
structure KbResult where
  error : Option String
  response : String
  sources : List String
  method : String
  sql_queries : List String
  tables_queried : List String
  num_sources : ℕ
  deriving DecidableEq

/-- The SQL-agent branch of `query_kb` after `tables_info` has been built
(kb_rag_engine.py lines 359-469): classify complexity, run the retry loop,
then either return the `sql_agent_failed` dict (lines 438-447, guarded by
`agent_error and attempt == max_retries`) or the normal `sql_agent` dict
(lines 449-469).  Python truthiness of `agent_error` (a string) is the
string being non-empty. -/
def queryKbSqlAgentBranch (tables_info : List TableInfo) (query : String)
    (agent : ℕ → TimeoutConfig → Except String AgentSuccess) : KbResult :=
  let complexity := classify_query_complexity query
  let ls := runRetryLoop agent complexity
  let errTruthy : Bool := match ls.agent_error with
    | some e => e != ""
    | none => false
  if errTruthy ∧ ls.attempt = retryConfigMaxRetries then
    { error := ls.agent_error,
      response := "I encountered an error after 3 attempts: "
        ++ ls.agent_error.getD "" ++
        "\n\nThis query may be too complex. Try simplifying your question or breaking it into smaller parts.",
      sources := [],
      method := "sql_agent_failed",
      sql_queries := ls.sql_queries,
      tables_queried := tables_info.map TableInfo.filename,
      num_sources := 0 }
  else
    let tables_queried := tablesUsed ls.sql_queries tables_info
    { error := none,
      response := ls.answer,
      sources := [],
      method := "sql_agent",
      sql_queries := ls.sql_queries,
      tables_queried := tables_queried,
      num_sources := tables_queried.length }

/-! ## Candidate chunks and the hybrid retriever stages
(kb_rag_engine.py lines 906-1030 and 1580-1695) -/

/-- A candidate chunk dict as built in `_vector_search` / `_basic_vector_search`
(kb_rag_engine.py lines 955-961 and 1015-1021).  `embedding` and
`rerank_score` model keys that later stages may add; they are absent
(`none`) on a freshly retrieved chunk. -/
structure Chunk where
  id : ℕ
  document_id : ℕ
  content : String
  similarity : ℚ
  embedding : Option (List ℚ)
  rerank_score : Option ℚ
  deriving DecidableEq

/-- A formatted Qdrant search result (qdrant_manager.py lines 228-238),
restricted to the keys the retriever reads. -/
structure QdrantResult where
  id : ℕ
  document_id : ℕ
  content : String
  score : ℚ
  deriving DecidableEq

/-- The chunk dict built from one Qdrant result (kb_rag_engine.py lines
955-961 and 1015-1021): `score` is renamed to `similarity`. -/
def chunkOfResult (r : QdrantResult) : Chunk :=
  ⟨r.id, r.document_id, r.content, r.score, none, none⟩

/-- `KnowledgeBaseRAG._basic_vector_search` (kb_rag_engine.py lines
990-1030).  The Qdrant lookup `self.qdrant.search_similar` may raise
(qdrant_manager.py line 245 re-raises), modelled by the `Except` argument;
the surrounding `try/except` returns `[]` instead of propagating. -/
def basic_vector_search (search_result : Except String (List QdrantResult)) :
    Except String (List Chunk) :=
  match search_result with
  | .ok results => .ok (results.map chunkOfResult)
  | .error _ => .ok []

/-! ### Fan-out dedup of `_vector_search` (kb_rag_engine.py lines 940-967)

`all_candidates` is a Python dict keyed by chunk id, modelled as an
association list with Python dict semantics: assignment to an existing key
replaces the stored value in place, assignment to a new key appends. -/

/-- Python dict read: the value at the first (unique) entry for `k`. -/
def dictGet : List (ℕ × Chunk) → ℕ → Option Chunk
  | [], _ => none
  | e :: rest, k => if e.1 = k then some e.2 else dictGet rest k

/-- Python dict assignment `m[k] = v`. -/
def dictUpsert (m : List (ℕ × Chunk)) (k : ℕ) (v : Chunk) : List (ℕ × Chunk) :=
  match m with
  | [] => [(k, v)]
  | e :: rest => if e.1 = k then (k, v) :: rest else e :: dictUpsert rest k v

/-- One iteration of the dedup loop (kb_rag_engine.py lines 962-965):
`if chunk_id not in all_candidates or chunk['similarity'] >
all_candidates[chunk_id]['similarity']: all_candidates[chunk_id] = chunk`. -/
def mergeStep (m : List (ℕ × Chunk)) (c : Chunk) : List (ℕ × Chunk) :=
  match dictGet m c.id with
  | none => dictUpsert m c.id c
  | some old => if c.similarity > old.similarity then dictUpsert m c.id c else m

/-- The dedup accumulation over the concatenated variant results. -/
def mergeAll (l : List Chunk) : List (ℕ × Chunk) := l.foldl mergeStep []

/-- Number of entries stored under key `k`. -/
def countKey (m : List (ℕ × Chunk)) (k : ℕ) : ℕ :=
  (m.filter (fun e => e.1 = k)).length

/-! ### `KnowledgeBaseRAG._rerank_results` (kb_rag_engine.py lines 1580-1623) -/

/-- The sort key of `ranked_chunks.sort(key=lambda x: x['rerank_score'],
reverse=True)`; on that path every chunk carries a `rerank_score`. -/
def rerankKey (c : Chunk) : ℚ := c.rerank_score.getD 0

/-- `KnowledgeBaseRAG._rerank_results`.  `predict` stands for
`self.reranker.predict` on one `(query, content)` pair and
`reranker_available` for the truthiness of `self.reranker`; a raised scorer
failure is subsumed by `reranker_available = false`, both returning
`chunks[:top_k]`.  Python `list.sort` with `reverse=True` is a stable
descending sort, modelled by `List.insertionSort` with the
greater-or-equal-key relation. -/
def rerank_results (predict : String → String → ℚ) (reranker_available : Bool)
    (query : String) (chunks : List Chunk) (top_k : ℕ) : List Chunk :=
  if !reranker_available || chunks.isEmpty then chunks.take top_k
  else
    let ranked_chunks := chunks.map
      (fun c => { c with rerank_score := some (predict query c.content) })
    (List.insertionSort (fun c d => rerankKey d ≤ rerankKey c) ranked_chunks).take top_k

/-! ### `KnowledgeBaseRAG._apply_mmr` (kb_rag_engine.py lines 1625-1695) -/

/-- `np.argmax`: the first index at which a list of scores attains its
maximum (`0` for the empty list). -/
def argmaxIdx : List ℚ → ℕ
  | [] => 0
  | a :: t =>
    let j := argmaxIdx t
    match t.get? j with
    | some m => if m > a then j + 1 else 0
    | none => 0

/-- `np.max` over a nonempty list of scores. -/
def npMax : List ℚ → ℚ
  | [] => 0
  | a :: t => t.foldl max a

/-- The embedding a chunk carries after the ensure-embedding loop
(`chunk['embedding']` read, kb_rag_engine.py lines 1663, 1669, 1672). -/
def chunkEmb (c : Chunk) : List ℚ := c.embedding.getD []

/-- The ensure-embedding loop of `_apply_mmr` (kb_rag_engine.py lines
1653-1656): every chunk missing an `embedding` gets one computed from its
content.  `remaining = chunks.copy()` is a shallow copy, so this writes
into the very dicts the caller passed in. -/
def ensureEmbeddings (encode : String → List ℚ) (chunks : List Chunk) :
    List Chunk :=
  chunks.map (fun c => match c.embedding with
    | some _ => c
    | none => { c with embedding := some (encode c.content) })

/-- The `while len(selected) < top_k and remaining` loop of `_apply_mmr`
(kb_rag_engine.py lines 1658-1688), parameterized by the similarity kernel
`sim` (standing for `cosine_similarity` on a pair of vectors).  The first
numeric argument is `top_k - len(selected)`, the number of selections still
to make. -/
def mmrLoop (sim : List ℚ → List ℚ → ℚ) (query_emb : List ℚ) (lambda_param : ℚ)
    (selected : List Chunk) : ℕ → List Chunk → List Chunk
  | 0, _ => selected
  | k + 1, remaining =>
    if remaining.isEmpty then selected
    else
      let scores :=
        if selected.isEmpty then
          remaining.map (fun c => sim query_emb (chunkEmb c))
        else
          remaining.map (fun c =>
            lambda_param * sim query_emb (chunkEmb c)
              - (1 - lambda_param)
                * npMax (selected.map (fun s => sim (chunkEmb c) (chunkEmb s))))
      let best_idx := argmaxIdx scores
      match remaining.get? best_idx with
      | some c => mmrLoop sim query_emb lambda_param (selected ++ [c]) k
          (remaining.eraseIdx best_idx)
      | none => selected

/-- `KnowledgeBaseRAG._apply_mmr`.  Returns the selected list together with
the post-state of the caller's chunk dicts (identical to the input when the
guard at lines 1643-1644 returns early, and the ensure-embedding result
otherwise, since `chunks.copy()` shares the dict objects with the caller). -/
def apply_mmr (sim : List ℚ → List ℚ → ℚ) (encode : String → List ℚ)
    (query_emb : List ℚ) (chunks : List Chunk) (lambda_param : ℚ)
    (top_k : ℕ) : List Chunk × List Chunk :=
  if chunks.isEmpty || chunks.length ≤ top_k then (chunks, chunks)
  else
    let ec := ensureEmbeddings encode chunks
    (mmrLoop sim query_emb lambda_param [] top_k ec, ec)

/-! ## `KnowledgeBaseRAG.classify_query_type` (kb_rag_engine.py lines 1724-1820)

The category scores are produced from embeddings of fixed exemplars
(lines 1772-1784); the scoring kernel is external, so the embedded function
takes the three category scores (in the dict insertion order `rag`, `sql`,
`prediction`) and mirrors the decision logic of lines 1789-1811. -/

/-- The classification result `{type, confidence}`. -/
structure ClassifyResult where
  type : String
  confidence : ℚ
  deriving DecidableEq

/-- Decision logic of `classify_query_type` given the category scores.
`max(category_scores.items(), key=...)` keeps the first maximal item of the
insertion-ordered dict, i.e. replaces the current best only on a strictly
greater score. -/
def classify_query_type (score_rag score_sql score_pred threshold : ℚ) :
    ClassifyResult :=
  let best1 : String × ℚ :=
    if score_sql > score_rag then ("sql", score_sql) else ("rag", score_rag)
  let best : String × ℚ :=
    if score_pred > best1.2 then ("prediction", score_pred) else best1
  let confidence := best.2
  let high_score_categories :=
    ([("rag", score_rag), ("sql", score_sql), ("prediction", score_pred)].filter
      (fun e => e.2 ≥ threshold)).map Prod.fst
  if high_score_categories.length > 1 then ⟨"hybrid", confidence⟩
  else if confidence < threshold then ⟨"rag", confidence⟩
  else ⟨best.1, confidence⟩

/-! ## Proof-support definitions -/

/-- Characterization device for the dedup fold: the entry the dict holds at
key `i` after scanning `l`, starting from a held entry `o` (first occurrence
wins ties, a strictly larger `similarity` replaces). -/
def bestOf (i : ℕ) : Option Chunk → List Chunk → Option Chunk
  | o, [] => o
  | o, c :: t =>
    if c.id = i then
      match o with
      | none => bestOf i (some c) t
      | some b =>
        if c.similarity > b.similarity then bestOf i (some c) t
        else bestOf i (some b) t
    else bestOf i o t

/-- Pure-relevance greedy selection: repeatedly extract the first maximal
element under `rel` (what the MMR loop degenerates to at `lambda_param = 1`). -/
def greedySelect (rel : Chunk → ℚ) : ℕ → List Chunk → List Chunk
  | 0, _ => []
  | k + 1, remaining =>
    if remaining.isEmpty then []
    else
      let j := argmaxIdx (remaining.map rel)
      match remaining.get? j with
      | some c => c :: greedySelect rel k (remaining.eraseIdx j)
      | none => []

/-! # Theorems -/

/-- C1: with `max_retries = 3` and an agent whose every attempt raises a
retryable error ("timeout"), `query_kb` performs exactly 3 attempts
(`attemptsMade = 3`) and sleeps `wait_seconds + 2 ^ 0 = 1` and
`wait_seconds + 2 ^ 1 = 2` seconds between attempts, as the claim states —
but it does not return the structured failure: the loop leaves
`attempt = 2`, so the post-loop guard `agent_error and attempt == max_retries`
at line 438 of kb_rag_engine.py is false and the function falls through to
the normal `sql_agent` response shape carrying an empty answer and no error
key, contradicting the claim (and the dead failure branch the code itself
contains at lines 440-447). -/
theorem c1_retry_exhaustion_result :
    runRetryLoop (fun _ _ => Except.error "timeout") "simple"
      = ⟨"", [], some "timeout", 2, 3, [1, 2]⟩
    ∧ queryKbSqlAgentBranch [⟨"t1", "f1.csv"⟩] "how many rows"
        (fun _ _ => Except.error "timeout")
      = { error := none, response := "", sources := [], method := "sql_agent",
          sql_queries := [], tables_queried := [], num_sources := 0 }
    ∧ "sql_agent" ≠ "sql_agent_failed" :=
  ⟨by decide, by decide, by decide⟩

/-- C2: `_remove_decimals_from_response` truncates `"GRPS is 3159.682"` to
`"GRPS is 3159"` as claimed, but a multi-dot version string is NOT left
unchanged: the pattern `\b(\d+)\.\d+\b` matches `3.14` inside
`"version 3.14.2"` (the boundary after `14` is the following dot), so the
code returns `"version 3.2"`, contradicting both the claim and the
function's own docstring. -/
theorem c2_remove_decimals_behaviour :
    remove_decimals_from_response "GRPS is 3159.682" = "GRPS is 3159"
    ∧ remove_decimals_from_response "version 3.14.2" = "version 3.2"
    ∧ remove_decimals_from_response "version 3.14.2" ≠ "version 3.14.2" :=
  ⟨by decide, by decide, by decide⟩

/-- C3 counterexample: a query with two JOIN clauses and a GROUP BY clause
(and no other complexity markers) scores 2 + 1 = 3 because the markers are
scored by presence, not multiplicity, so `_classify_query_complexity`
returns "moderate", not "complex" as the claim states. -/
theorem c3_counterexample_two_joins_group_by :
    countOcc "JOIN" (pyUpper "SELECT a FROM t1 JOIN t2 JOIN t3 GROUP BY a") = 2
    ∧ pyIn "GROUP BY" (pyUpper "SELECT a FROM t1 JOIN t2 JOIN t3 GROUP BY a") = true
    ∧ classify_query_complexity "SELECT a FROM t1 JOIN t2 JOIN t3 GROUP BY a"
        = "moderate"
    ∧ "moderate" ≠ "complex" :=
  ⟨by decide, by decide, by decide, by decide⟩

/-- C3 amended: complexity is scored additively by marker presence (+2 join,
+1 grouping, +2 having, +3 nested SELECT, +1 temporal keyword) with the
claimed tier thresholds (≤2 simple, ≤5 moderate, else complex); a query with
none of the markers scores 0 and is "simple"; a query whose only markers are
a join indicator and a grouping indicator — regardless of how many JOIN
occurrences it has — scores 3 and is "moderate", not "complex". -/
theorem c3_complexity_amended :
    (∀ q, classify_query_complexity q =
      (if complexityScoreSpec q ≤ 2 then "simple"
       else if complexityScoreSpec q ≤ 5 then "moderate" else "complex"))
    ∧ (∀ q, pyIn "JOIN" (pyUpper q) = false → pyIn "GROUP BY" (pyUpper q) = false →
        pyIn "HAVING" (pyUpper q) = false → countOcc "SELECT" (pyUpper q) ≤ 1 →
        (["last", "previous", "year", "month"].any (fun w => pyIn w q)) = false →
        complexityScoreSpec q = 0 ∧ classify_query_complexity q = "simple")
    ∧ (∀ q, pyIn "JOIN" (pyUpper q) = true → pyIn "GROUP BY" (pyUpper q) = true →
        pyIn "HAVING" (pyUpper q) = false → countOcc "SELECT" (pyUpper q) ≤ 1 →
        (["last", "previous", "year", "month"].any (fun w => pyIn w q)) = false →
        complexityScoreSpec q = 3 ∧ classify_query_complexity q = "moderate") := by
  refine ⟨fun q => rfl, fun q h1 h2 h3 h4 h5 => ?_, fun q h1 h2 h3 h4 h5 => ?_⟩
  · have h4' : ¬ (countOcc "SELECT" (pyUpper q) > 1) := by omega
    exact ⟨by simp [complexityScoreSpec, h1, h2, h3, h4', h5],
      by simp [classify_query_complexity, h1, h2, h3, h4', h5]⟩
  · have h4' : ¬ (countOcc "SELECT" (pyUpper q) > 1) := by omega
    exact ⟨by simp [complexityScoreSpec, h1, h2, h3, h4', h5],
      by simp [classify_query_complexity, h1, h2, h3, h4', h5]⟩

/-- C3 witness: the amended theorem applied at a marker-free query and at a
query containing two JOIN clauses and one GROUP BY clause. -/
theorem c3_complexity_amended_witness :
    classify_query_complexity "what is the average score" = "simple"
    ∧ classify_query_complexity "SELECT a FROM t1 JOIN t2 JOIN t3 GROUP BY a"
        = "moderate" :=
  ⟨(c3_complexity_amended.2.1 "what is the average score"
      (by decide) (by decide) (by decide) (by decide) (by decide)).2,
    (c3_complexity_amended.2.2 "SELECT a FROM t1 JOIN t2 JOIN t3 GROUP BY a"
      (by decide) (by decide) (by decide) (by decide) (by decide)).2⟩

/-- C4: `_classify_error_type` agrees with the spec's ordered
first-match-wins pattern table on kind, retryability and base wait for every
error string, and in particular an error whose text contains both "timeout"
and "syntax error" is classified as timeout (priority of the first group),
not database. -/
theorem c4_error_classifier_first_match :
    (∀ e, ((classify_error_type e).error_type, (classify_error_type e).should_retry,
        (classify_error_type e).wait_seconds) = classifyErrorSpec e)
    ∧ pyIn "timeout" (pyLower "Timeout: syntax error in query") = true
    ∧ pyIn "syntax error" (pyLower "Timeout: syntax error in query") = true
    ∧ classify_error_type "Timeout: syntax error in query"
      = ⟨"timeout", true, 0,
          "Query taking longer than expected, retrying with extended timeout..."⟩ := by
  refine ⟨fun e => ?_, by decide, by decide, by decide⟩
  simp only [classify_error_type, classifyErrorSpec, errorTableSpec, firstMatchSpec]
  split_ifs <;> rfl

/-- C10: `_basic_vector_search` is total: whatever the similarity-store
lookup does, the function returns a result and never propagates an
exception; a raising lookup yields the empty list, and a successful lookup
yields the formatted chunks. -/
theorem c10_basic_vector_search_total :
    (∀ s : Except String (List QdrantResult), ∃ l, basic_vector_search s = .ok l)
    ∧ (∀ e, basic_vector_search (.error e) = .ok [])
    ∧ (∀ rs, basic_vector_search (.ok rs) = .ok (rs.map chunkOfResult)) := by
  refine ⟨fun s => ?_, fun e => rfl, fun rs => rfl⟩
  cases s with
  | ok rs => exact ⟨rs.map chunkOfResult, rfl⟩
  | error e => exact ⟨[], rfl⟩

/-- Membership in the inner table loop of the `tables_used` extraction. -/
theorem mem_inner_fold (q : String) (f : String) :
    ∀ (ts : List TableInfo) (acc : List String),
      f ∈ ts.foldl
        (fun acc2 table_info =>
          if pyIn table_info.table_name (pyLower q) then
            if table_info.filename ∈ acc2 then acc2
            else acc2 ++ [table_info.filename]
          else acc2) acc
      ↔ f ∈ acc ∨ ∃ t ∈ ts, t.filename = f ∧ pyIn t.table_name (pyLower q) = true := by
  intro ts
  induction ts with
  | nil => intro acc; simp
  | cons t0 ts ih =>
    intro acc
    simp only [List.foldl_cons, ih]
    by_cases hp : pyIn t0.table_name (pyLower q) = true
    · by_cases hm : t0.filename ∈ acc
      · simp only [hp, if_true, hm, if_pos]
        constructor
        · rintro (h | h)
          · exact Or.inl h
          · exact Or.inr (by simpa using Or.inr h)
        · rintro (h | ⟨t, ht, hf, hpy⟩)
          · exact Or.inl h
          · rcases List.mem_cons.mp ht with rfl | ht'
            · exact Or.inl (hf ▸ hm)
            · exact Or.inr ⟨t, ht', hf, hpy⟩
      · simp only [hp, if_true, hm, if_neg, not_false_iff]
        constructor
        · rintro (h | h)
          · rcases List.mem_append.mp h with h' | h'
            · exact Or.inl h'
            · simp only [List.mem_singleton] at h'
              exact Or.inr ⟨t0, List.mem_cons_self _ _, h'.symm ▸ rfl, hp⟩
          · exact Or.inr (by simpa using Or.inr h)
        · rintro (h | ⟨t, ht, hf, hpy⟩)
          · exact Or.inl (List.mem_append.mpr (Or.inl h))
          · rcases List.mem_cons.mp ht with rfl | ht'
            · exact Or.inl (List.mem_append.mpr (Or.inr (by simp [hf])))
            · exact Or.inr ⟨t, ht', hf, hpy⟩
    · simp only [Bool.not_eq_true] at hp
      simp only [hp, Bool.false_eq_true, if_false]
      constructor
      · rintro (h | h)
        · exact Or.inl h
        · exact Or.inr (by simpa using Or.inr h)
      · rintro (h | ⟨t, ht, hf, hpy⟩)
        · exact Or.inl h
        · rcases List.mem_cons.mp ht with rfl | ht'
          · rw [hp] at hpy; exact absurd hpy (by simp)
          · exact Or.inr ⟨t, ht', hf, hpy⟩

/-- C8 amended: a table's filename is reported in `tables_queried` if and
only if the table's stored identifier — with its stored letter case —
occurs as a substring of the lowercased text of at least one issued
tool-input string.  The match is therefore case-insensitive in the
tool-input text only; an identifier containing uppercase letters is never
matched, because `table_info['table_name']` is compared un-lowered against
`sql_query.lower()`. -/
theorem c8_tables_used_amended (qs : List String) (ts : List TableInfo)
    (f : String) :
    f ∈ tablesUsed qs ts
    ↔ ∃ q ∈ qs, ∃ t ∈ ts, t.filename = f ∧ pyIn t.table_name (pyLower q) = true := by
  suffices h : ∀ acc, f ∈ qs.foldl
      (fun acc sql_query =>
        ts.foldl
          (fun acc2 table_info =>
            if pyIn table_info.table_name (pyLower sql_query) then
              if table_info.filename ∈ acc2 then acc2
              else acc2 ++ [table_info.filename]
            else acc2) acc) acc
      ↔ f ∈ acc ∨ ∃ q ∈ qs, ∃ t ∈ ts, t.filename = f ∧ pyIn t.table_name (pyLower q) = true by
    have := h []
    simpa [tablesUsed] using this
  induction qs with
  | nil => intro acc; simp
  | cons q0 qs ih =>
    intro acc
    simp only [List.foldl_cons, ih, mem_inner_fold]
    constructor
    · rintro ((h | ⟨t, ht, hf, hpy⟩) | ⟨q, hq, rest⟩)
      · exact Or.inl h
      · exact Or.inr ⟨q0, List.mem_cons_self _ _, t, ht, hf, hpy⟩
      · exact Or.inr ⟨q, List.mem_cons_of_mem _ hq, rest⟩
    · rintro (h | ⟨q, hq, t, ht, hf, hpy⟩)
      · exact Or.inl (Or.inl h)
      · rcases List.mem_cons.mp hq with rfl | hq'
        · exact Or.inl (Or.inr ⟨t, ht, hf, hpy⟩)
        · exact Or.inr ⟨q, hq', t, ht, hf, hpy⟩

/-- C8 counterexample: a table stored with the mixed-case identifier
`MyTable` is not reported as used even though its identifier occurs
case-insensitively in the issued tool-input `SELECT * FROM MyTable` —
the lowercased query does contain the lowercased identifier, yet
`tables_used` comes back empty, refuting the claim that the match succeeds
regardless of the letter case of the table identifier. -/
theorem c8_counterexample_mixed_case_identifier :
    tablesUsed ["SELECT * FROM MyTable"] [⟨"MyTable", "f.csv"⟩] = []
    ∧ pyIn (pyLower "MyTable") (pyLower "SELECT * FROM MyTable") = true :=
  ⟨by decide, by decide⟩

theorem dictGet_upsert (m : List (ℕ × Chunk)) (k : ℕ) (v : Chunk) (i : ℕ) :
    dictGet (dictUpsert m k v) i = if i = k then some v else dictGet m i := by
  induction m with
  | nil =>
    by_cases h : i = k
    · simp [dictUpsert, dictGet, h]
    · have h' : ¬ k = i := fun hh => h hh.symm
      simp [dictUpsert, dictGet, h, h']
  | cons e rest ih =>
    by_cases hek : e.1 = k
    · by_cases hik : i = k
      · simp [dictUpsert, dictGet, hek, hik]
      · have hki : ¬ k = i := fun hh => hik hh.symm
        have hei : ¬ e.1 = i := fun hh => hik (hek.symm.trans hh).symm
        simp [dictUpsert, dictGet, hek, hik, hki, hei]
    · by_cases hei : e.1 = i
      · have hik : ¬ i = k := fun hh => hek (hei.trans hh)
        simp [dictUpsert, dictGet, hek, hei, hik]
      · simp [dictUpsert, dictGet, hek, hei, ih]

theorem dictGet_mergeStep (m : List (ℕ × Chunk)) (c : Chunk) (i : ℕ) :
    dictGet (mergeStep m c) i =
      if c.id = i then
        (match dictGet m i with
          | none => some c
          | some old => if c.similarity > old.similarity then some c else some old)
      else dictGet m i := by
  by_cases hci : c.id = i
  · subst hci
    cases h : dictGet m c.id with
    | none => simp [mergeStep, h, dictGet_upsert]
    | some old =>
      by_cases hs : c.similarity > old.similarity
      · simp [mergeStep, h, hs, dictGet_upsert]
      · simp [mergeStep, h, hs]
  · cases h : dictGet m c.id with
    | none =>
      have : ¬ i = c.id := fun hh => hci hh.symm
      simp [mergeStep, h, dictGet_upsert, hci, this]
    | some old =>
      by_cases hs : c.similarity > old.similarity
      · have : ¬ i = c.id := fun hh => hci hh.symm
        simp [mergeStep, h, hs, dictGet_upsert, hci, this]
      · simp [mergeStep, h, hs, hci]

theorem dictGet_foldl_merge (i : ℕ) :
    ∀ (l : List Chunk) (m : List (ℕ × Chunk)),
      dictGet (l.foldl mergeStep m) i = bestOf i (dictGet m i) l := by
  intro l
  induction l with
  | nil => intro m; simp [bestOf]
  | cons c t ih =>
    intro m
    rw [List.foldl_cons, ih, dictGet_mergeStep]
    by_cases hci : c.id = i
    · cases h : dictGet m i with
      | none => simp [bestOf, hci, h]
      | some old =>
        by_cases hs : c.similarity > old.similarity
        · simp [bestOf, hci, h, hs]
        · simp [bestOf, hci, h, hs]
    · simp [bestOf, hci]

theorem bestOf_eq_none (i : ℕ) :
    ∀ (l : List Chunk) (o : Option Chunk), bestOf i o l = none →
      o = none ∧ ∀ c ∈ l, c.id ≠ i := by
  intro l
  induction l with
  | nil => intro o h; simpa [bestOf] using h
  | cons c t ih =>
    intro o h
    by_cases hci : c.id = i
    · cases o with
      | none =>
        simp only [bestOf, hci, if_pos] at h
        rcases ih (some c) h with ⟨hc, _⟩
        exact absurd hc (by simp)
      | some b =>
        simp only [bestOf, hci, if_pos] at h
        by_cases hs : c.similarity > b.similarity
        · rw [if_pos hs] at h
          rcases ih (some c) h with ⟨hc, _⟩
          exact absurd hc (by simp)
        · rw [if_neg hs] at h
          rcases ih (some b) h with ⟨hc, _⟩
          exact absurd hc (by simp)
    · simp only [bestOf, hci, if_neg, not_false_iff] at h
      rcases ih o h with ⟨ho, hall⟩
      exact ⟨ho, fun d hd => by
        rcases List.mem_cons.mp hd with rfl | hd'
        · exact hci
        · exact hall d hd'⟩

theorem bestOf_eq_some (i : ℕ) :
    ∀ (l : List Chunk) (o : Option Chunk) (c : Chunk), bestOf i o l = some c →
      (o = some c ∨ (c ∈ l ∧ c.id = i))
      ∧ (∀ d, o = some d → d.similarity ≤ c.similarity)
      ∧ (∀ d ∈ l, d.id = i → d.similarity ≤ c.similarity) := by
  intro l
  induction l with
  | nil =>
    intro o c h
    simp only [bestOf] at h
    refine ⟨Or.inl h, fun d hd => ?_, by simp⟩
    rw [h] at hd
    exact le_of_eq (Option.some_injective _ hd ▸ rfl)
  | cons c0 t ih =>
    intro o c h
    by_cases hci : c0.id = i
    · cases o with
      | none =>
        simp only [bestOf, hci, if_pos] at h
        rcases ih (some c0) c h with ⟨hmem, hacc, hall⟩
        have hc0c : c0.similarity ≤ c.similarity := hacc c0 rfl
        refine ⟨?_, by simp, fun d hd hdi => ?_⟩
        · rcases hmem with hc | ⟨hmem', hid⟩
          · have hc' : c0 = c := Option.some_injective _ hc
            exact Or.inr ⟨hc' ▸ List.mem_cons_self _ _, hc' ▸ hci⟩
          · exact Or.inr ⟨List.mem_cons_of_mem _ hmem', hid⟩
        · rcases List.mem_cons.mp hd with rfl | hd'
          · exact hc0c
          · exact hall d hd' hdi
      | some b =>
        simp only [bestOf, hci, if_pos] at h
        by_cases hs : c0.similarity > b.similarity
        · rw [if_pos hs] at h
          rcases ih (some c0) c h with ⟨hmem, hacc, hall⟩
          have hc0c : c0.similarity ≤ c.similarity := hacc c0 rfl
          refine ⟨?_, fun d hd => ?_, fun d hd hdi => ?_⟩
          · rcases hmem with hc | ⟨hmem', hid⟩
            · have hc' : c0 = c := Option.some_injective _ hc
              exact Or.inr ⟨hc' ▸ List.mem_cons_self _ _, hc' ▸ hci⟩
            · exact Or.inr ⟨List.mem_cons_of_mem _ hmem', hid⟩
          · have : d = b := Option.some_injective _ hd.symm
            subst this
            exact le_of_lt (lt_of_lt_of_le hs hc0c)
          · rcases List.mem_cons.mp hd with rfl | hd'
            · exact hc0c
            · exact hall d hd' hdi
        · rw [if_neg hs] at h
          rcases ih (some b) c h with ⟨hmem, hacc, hall⟩
          have hbc : b.similarity ≤ c.similarity := hacc b rfl
          refine ⟨?_, fun d hd => ?_, fun d hd hdi => ?_⟩
          · rcases hmem with hc | ⟨hmem', hid⟩
            · exact Or.inl hc
            · exact Or.inr ⟨List.mem_cons_of_mem _ hmem', hid⟩
          · have : d = b := Option.some_injective _ hd.symm
            subst this
            exact hbc
          · rcases List.mem_cons.mp hd with rfl | hd'
            · exact le_trans (le_of_not_lt hs) hbc
            · exact hall d hd' hdi
    · simp only [bestOf, hci, if_neg, not_false_iff] at h
      rcases ih o c h with ⟨hmem, hacc, hall⟩
      refine ⟨?_, hacc, fun d hd hdi => ?_⟩
      · rcases hmem with hc | ⟨hmem', hid⟩
        · exact Or.inl hc
        · exact Or.inr ⟨List.mem_cons_of_mem _ hmem', hid⟩
      · rcases List.mem_cons.mp hd with rfl | hd'
        · exact absurd hdi hci
        · exact hall d hd' hdi

theorem keys_upsert (k : ℕ) (v : Chunk) :
    ∀ m : List (ℕ × Chunk),
      (dictUpsert m k v).map Prod.fst =
        if k ∈ m.map Prod.fst then m.map Prod.fst else m.map Prod.fst ++ [k] := by
  intro m
  induction m with
  | nil => simp [dictUpsert]
  | cons e rest ih =>
    by_cases hek : e.1 = k
    · simp [dictUpsert, hek]
    · have : ¬ k = e.1 := fun h => hek h.symm
      simp [dictUpsert, hek, ih, this]
      by_cases hk : k ∈ rest.map Prod.fst <;> simp [hk, this]

theorem nodup_keys_upsert (k : ℕ) (v : Chunk) (m : List (ℕ × Chunk))
    (h : (m.map Prod.fst).Nodup) : ((dictUpsert m k v).map Prod.fst).Nodup := by
  rw [keys_upsert]
  by_cases hk : k ∈ m.map Prod.fst
  · simpa [hk] using h
  · simp only [hk, if_neg, not_false_iff]
    exact List.Nodup.append h (List.nodup_singleton k) (by simpa using hk)

theorem nodup_keys_mergeStep (m : List (ℕ × Chunk)) (c : Chunk)
    (h : (m.map Prod.fst).Nodup) : ((mergeStep m c).map Prod.fst).Nodup := by
  unfold mergeStep
  cases dictGet m c.id with
  | none => exact nodup_keys_upsert _ _ _ h
  | some old =>
    by_cases hs : c.similarity > old.similarity
    · simpa [hs] using nodup_keys_upsert c.id c m h
    · simpa [hs] using h

theorem nodup_keys_foldl_merge :
    ∀ (l : List Chunk) (m : List (ℕ × Chunk)),
      (m.map Prod.fst).Nodup → (((l.foldl mergeStep m)).map Prod.fst).Nodup := by
  intro l
  induction l with
  | nil => intro m h; simpa using h
  | cons c t ih =>
    intro m h
    exact ih (mergeStep m c) (nodup_keys_mergeStep m c h)

theorem countKey_eq_one_of_get (i : ℕ) :
    ∀ (m : List (ℕ × Chunk)), (m.map Prod.fst).Nodup →
      (∃ c, dictGet m i = some c) → countKey m i = 1 := by
  intro m
  induction m with
  | nil => intro _ h; simp [dictGet] at h
  | cons e rest ih =>
    intro hnd hex
    have hnd' : (rest.map Prod.fst).Nodup := (List.nodup_cons.mp (by simpa using hnd)).2
    by_cases hei : e.1 = i
    · have hnotin : e.1 ∉ rest.map Prod.fst := (List.nodup_cons.mp (by simpa using hnd)).1
      have hfilter : rest.filter (fun x => x.1 = i) = [] := by
        apply List.filter_eq_nil_iff.mpr
        intro a ha
        simp only [decide_eq_true_eq]
        intro hai
        exact hnotin (hei ▸ hai ▸ List.mem_map_of_mem Prod.fst ha)
      simp [countKey, hei, hfilter]
    · rcases hex with ⟨c, hc⟩
      simp only [dictGet, hei, if_neg, not_false_iff] at hc
      have := ih hnd' ⟨c, hc⟩
      simpa [countKey, hei] using this

/-- C5: when two variant result sets share a candidate id with differing
similarity scores (and are otherwise the only carriers of that id), the
deduplicated pool holds exactly one entry for that id, that entry carries
the higher similarity, and the outcome is the same whichever variant's
results are merged first. -/
theorem c5_dedup_keeps_highest (l1 l2 : List Chunk) (c1 c2 : Chunk)
    (h1 : c1 ∈ l1) (h2 : c2 ∈ l2) (hid : c1.id = c2.id)
    (hsim : c1.similarity ≠ c2.similarity)
    (honly : ∀ c ∈ l1 ++ l2, c.id = c1.id → c = c1 ∨ c = c2) :
    ∃ cw, (cw = c1 ∨ cw = c2)
      ∧ cw.similarity = max c1.similarity c2.similarity
      ∧ dictGet (mergeAll (l1 ++ l2)) c1.id = some cw
      ∧ dictGet (mergeAll (l2 ++ l1)) c1.id = some cw
      ∧ countKey (mergeAll (l1 ++ l2)) c1.id = 1
      ∧ countKey (mergeAll (l2 ++ l1)) c1.id = 1 := by
  have key : ∀ L : List Chunk, c1 ∈ L → c2 ∈ L →
      (∀ c ∈ L, c.id = c1.id → c = c1 ∨ c = c2) →
      ∃ cw, dictGet (mergeAll L) c1.id = some cw ∧ (cw = c1 ∨ cw = c2)
        ∧ cw.similarity = max c1.similarity c2.similarity := by
    intro L hm1 hm2 honlyL
    have hget : dictGet (mergeAll L) c1.id = bestOf c1.id none L := by
      have := dictGet_foldl_merge c1.id L []
      simpa [mergeAll, dictGet] using this
    cases hbo : bestOf c1.id none L with
    | none =>
      rcases bestOf_eq_none c1.id L none hbo with ⟨_, hall⟩
      exact absurd rfl (hall c1 hm1)
    | some cw =>
      rcases bestOf_eq_some c1.id L none cw hbo with ⟨hmem, _, hall⟩
      have hcw12 : cw = c1 ∨ cw = c2 := by
        rcases hmem with hno | ⟨hmemL, hcwid⟩
        · exact absurd hno (by simp)
        · exact honlyL cw hmemL hcwid
      have hle1 : c1.similarity ≤ cw.similarity := hall c1 hm1 rfl
      have hle2 : c2.similarity ≤ cw.similarity := hall c2 hm2 hid.symm
      have hmax : cw.similarity = max c1.similarity c2.similarity := by
        rcases hcw12 with rfl | rfl
        · exact (max_eq_left hle2).symm
        · exact (max_eq_right hle1).symm
      exact ⟨cw, hget ▸ hbo, hcw12, hmax⟩
  have hm1L : c1 ∈ l1 ++ l2 := List.mem_append.mpr (Or.inl h1)
  have hm2L : c2 ∈ l1 ++ l2 := List.mem_append.mpr (Or.inr h2)
  have hm1L' : c1 ∈ l2 ++ l1 := List.mem_append.mpr (Or.inr h1)
  have hm2L' : c2 ∈ l2 ++ l1 := List.mem_append.mpr (Or.inl h2)
  have honly' : ∀ c ∈ l2 ++ l1, c.id = c1.id → c = c1 ∨ c = c2 := by
    intro c hc hcid
    rcases List.mem_append.mp hc with hc' | hc'
    · exact honly c (List.mem_append.mpr (Or.inr hc')) hcid
    · exact honly c (List.mem_append.mpr (Or.inl hc')) hcid
  rcases key (l1 ++ l2) hm1L hm2L honly with ⟨cw, hgw, hcw12, hmax⟩
  rcases key (l2 ++ l1) hm1L' hm2L' honly' with ⟨cw', hgw', hcw12', hmax'⟩
  have hcweq : cw' = cw := by
    rcases hcw12 with h1' | h1' <;> rcases hcw12' with h2' | h2'
    · rw [h1', h2']
    · rw [h1'] at hmax
      rw [h2'] at hmax'
      exact absurd (hmax.trans hmax'.symm) hsim
    · rw [h1'] at hmax
      rw [h2'] at hmax'
      exact absurd (hmax'.trans hmax.symm) hsim
    · rw [h1', h2']
  subst hcweq
  have hnodup : ((mergeAll (l1 ++ l2)).map Prod.fst).Nodup := by
    have := nodup_keys_foldl_merge (l1 ++ l2) [] (by simp)
    simpa [mergeAll] using this
  have hnodup' : ((mergeAll (l2 ++ l1)).map Prod.fst).Nodup := by
    have := nodup_keys_foldl_merge (l2 ++ l1) [] (by simp)
    simpa [mergeAll] using this
  exact ⟨cw', hcw12, hmax, hgw, hgw',
    countKey_eq_one_of_get c1.id _ hnodup ⟨cw', hgw⟩,
    countKey_eq_one_of_get c1.id _ hnodup' ⟨cw', hgw'⟩⟩

/-- C5 witness: the dedup theorem applied to two one-collision result sets
with similarities 1 and 2. -/
theorem c5_dedup_keeps_highest_witness :
    ∃ cw, (cw = (⟨7, 1, "alpha", 1, none, none⟩ : Chunk)
        ∨ cw = (⟨7, 1, "beta", 2, none, none⟩ : Chunk))
      ∧ cw.similarity = max (1 : ℚ) 2
      ∧ dictGet (mergeAll ([⟨7, 1, "alpha", 1, none, none⟩]
          ++ [⟨9, 2, "other", 5, none, none⟩, ⟨7, 1, "beta", 2, none, none⟩])) 7
          = some cw
      ∧ dictGet (mergeAll ([⟨9, 2, "other", 5, none, none⟩,
          ⟨7, 1, "beta", 2, none, none⟩] ++ [⟨7, 1, "alpha", 1, none, none⟩])) 7
          = some cw
      ∧ countKey (mergeAll ([⟨7, 1, "alpha", 1, none, none⟩]
          ++ [⟨9, 2, "other", 5, none, none⟩, ⟨7, 1, "beta", 2, none, none⟩])) 7 = 1
      ∧ countKey (mergeAll ([⟨9, 2, "other", 5, none, none⟩,
          ⟨7, 1, "beta", 2, none, none⟩] ++ [⟨7, 1, "alpha", 1, none, none⟩])) 7 = 1 :=
  c5_dedup_keeps_highest [⟨7, 1, "alpha", 1, none, none⟩]
    [⟨9, 2, "other", 5, none, none⟩, ⟨7, 1, "beta", 2, none, none⟩]
    ⟨7, 1, "alpha", 1, none, none⟩ ⟨7, 1, "beta", 2, none, none⟩
    (by decide) (by decide) (by decide) (by decide) (by decide)

/-- C9 amended: reranking sets `rerank_score` on copies — every chunk it
returns agrees with some input chunk on every field except possibly
`rerank_score`, and the caller's chunks are untouched.  MMR, however, does
write into the caller's candidate dicts: its post-state preserves every
field except `embedding`, never overwrites an existing `embedding` (inputs
whose chunks all carry embeddings come back unchanged), but it adds
`embedding` to any input chunk that lacked one (refuting the claim that it
never writes any field). -/
theorem c9_mutation_amended :
    (∀ (predict : String → String → ℚ) (avail : Bool) (q : String)
        (chunks : List Chunk) (k : ℕ),
      ∀ c ∈ rerank_results predict avail q chunks k,
        ∃ c0 ∈ chunks, c.id = c0.id ∧ c.document_id = c0.document_id
          ∧ c.content = c0.content ∧ c.similarity = c0.similarity
          ∧ c.embedding = c0.embedding)
    ∧ (∀ (sim : List ℚ → List ℚ → ℚ) (encode : String → List ℚ)
        (qe : List ℚ) (chunks : List Chunk) (lam : ℚ) (k : ℕ),
      (∀ c ∈ chunks, c.embedding.isSome) →
        (apply_mmr sim encode qe chunks lam k).2 = chunks)
    ∧ (∀ (sim : List ℚ → List ℚ → ℚ) (encode : String → List ℚ)
        (qe : List ℚ) (chunks : List Chunk) (lam : ℚ) (k : ℕ) (i : ℕ) (c0 : Chunk),
      chunks.get? i = some c0 →
        ∃ c1, (apply_mmr sim encode qe chunks lam k).2.get? i = some c1
          ∧ c1.id = c0.id ∧ c1.document_id = c0.document_id
          ∧ c1.content = c0.content ∧ c1.similarity = c0.similarity
          ∧ c1.rerank_score = c0.rerank_score
          ∧ (c1.embedding = c0.embedding
             ∨ (c0.embedding = none ∧ c1.embedding = some (encode c0.content)))) := by
  refine ⟨?_, ?_, ?_⟩
  · intro predict avail q chunks k c hc
    unfold rerank_results at hc
    by_cases hguard : (!avail || chunks.isEmpty) = true
    · rw [if_pos hguard] at hc
      exact ⟨c, List.take_subset _ _ hc, rfl, rfl, rfl, rfl, rfl⟩
    · rw [if_neg hguard] at hc
      have hc2 := List.take_subset _ _ hc
      have hc3 : c ∈ chunks.map
          (fun c => { c with rerank_score := some (predict q c.content) }) :=
        (List.perm_insertionSort _ _).mem_iff.mp hc2
      rcases List.mem_map.mp hc3 with ⟨c0, hc0, hceq⟩
      exact ⟨c0, hc0, by rw [← hceq], by rw [← hceq], by rw [← hceq], by rw [← hceq],
        by rw [← hceq]⟩
  · intro sim encode qe chunks lam k hall
    unfold apply_mmr
    by_cases hguard : (chunks.isEmpty || chunks.length ≤ k : Prop)
    · simp only [hguard, if_pos]
    · rw [if_neg hguard]
      show ensureEmbeddings encode chunks = chunks
      unfold ensureEmbeddings
      have : ∀ c ∈ chunks,
          (match c.embedding with
            | some _ => c
            | none => { c with embedding := some (encode c.content) }) = id c := by
        intro c hc
        rcases Option.isSome_iff_exists.mp (hall c hc) with ⟨v, hv⟩
        simp [hv]
      rw [List.map_congr_left this, List.map_id]
  · intro sim encode qe chunks lam k i c0 h0
    unfold apply_mmr
    by_cases hguard : (chunks.isEmpty || chunks.length ≤ k : Prop)
    · simp only [hguard, if_pos]
      exact ⟨c0, h0, rfl, rfl, rfl, rfl, rfl, Or.inl rfl⟩
    · rw [if_neg hguard]
      show ∃ c1, (ensureEmbeddings encode chunks).get? i = some c1 ∧ _
      unfold ensureEmbeddings
      rw [List.get?_map, h0]
      cases hemb : c0.embedding with
      | some v => exact ⟨c0, by simp [hemb], rfl, rfl, rfl, rfl, rfl, Or.inl hemb⟩
      | none =>
        refine ⟨{ c0 with embedding := some (encode c0.content) }, by simp [hemb],
          rfl, rfl, rfl, rfl, rfl, Or.inr ⟨rfl, rfl⟩⟩

/-- C9 counterexample: a candidate dict passed to `_apply_mmr` without an
`embedding` key comes back with one — the ensure-embedding loop at lines
1653-1656 writes `chunk['embedding']` on the shallow-copied (hence shared)
dicts, so MMR does mutate its input candidates, contrary to the claim. -/
theorem c9_counterexample_mmr_adds_embedding :
    (apply_mmr (fun a b => (a.headD 0) * (b.headD 0)) (fun _ => [5]) [1]
      [⟨1, 1, "a", 0, none, none⟩, ⟨2, 1, "b", 0, some [1], none⟩] (7/10) 1).2
    = [⟨1, 1, "a", 0, some [5], none⟩, ⟨2, 1, "b", 0, some [1], none⟩]
    ∧ (apply_mmr (fun a b => (a.headD 0) * (b.headD 0)) (fun _ => [5]) [1]
      [⟨1, 1, "a", 0, none, none⟩, ⟨2, 1, "b", 0, some [1], none⟩] (7/10) 1).2
    ≠ [⟨1, 1, "a", 0, none, none⟩, ⟨2, 1, "b", 0, some [1], none⟩] :=
  ⟨by decide, by decide⟩

/-- C9 witness: the amended theorem applied to an input whose chunks all
carry embeddings — the MMR post-state is the unchanged input. -/
theorem c9_mutation_amended_witness :
    (apply_mmr (fun _ b => b.headD 0) (fun _ => [2]) [1]
      [⟨1, 1, "a", 0, some [3], none⟩, ⟨2, 1, "b", 0, some [4], none⟩] 1 1).2
    = [⟨1, 1, "a", 0, some [3], none⟩, ⟨2, 1, "b", 0, some [4], none⟩] :=
  c9_mutation_amended.2.1 (fun _ b => b.headD 0) (fun _ => [2]) [1]
    [⟨1, 1, "a", 0, some [3], none⟩, ⟨2, 1, "b", 0, some [4], none⟩] 1 1
    (by decide)

theorem argmaxIdx_cons (a : ℚ) (t : List ℚ) :
    argmaxIdx (a :: t) = match t.get? (argmaxIdx t) with
      | some m => if m > a then argmaxIdx t + 1 else 0
      | none => 0 := rfl

theorem sort_extract (rel : Chunk → ℚ) :
    ∀ (t : List Chunk) (a : Chunk),
      ∃ c, (a :: t).get? (argmaxIdx ((a :: t).map rel)) = some c
        ∧ List.insertionSort (fun x y => rel y ≤ rel x) (a :: t)
          = c :: List.insertionSort (fun x y => rel y ≤ rel x)
              ((a :: t).eraseIdx (argmaxIdx ((a :: t).map rel))) := by
  intro t
  induction t with
  | nil =>
    intro a
    exact ⟨a, by simp [argmaxIdx], by
      simp [argmaxIdx, List.insertionSort, List.orderedInsert]⟩
  | cons b t2 ih =>
    intro a
    obtain ⟨m, hm, hsort⟩ := ih b
    have hS : ((b :: t2).map rel).get? (argmaxIdx ((b :: t2).map rel))
        = some (rel m) := by
      rw [List.get?_map]
      cases hg : (b :: t2).get? (argmaxIdx ((b :: t2).map rel)) with
      | none => rw [hg] at hm; exact absurd hm (by simp)
      | some x => rw [hg] at hm; simp [Option.some_injective _ hm]
    have hmap : (a :: b :: t2).map rel = rel a :: (b :: t2).map rel := rfl
    have h1 : List.insertionSort (fun x y => rel y ≤ rel x) (a :: b :: t2)
        = List.orderedInsert (fun x y => rel y ≤ rel x) a
            (List.insertionSort (fun x y => rel y ≤ rel x) (b :: t2)) := rfl
    by_cases hcmp : rel m > rel a
    · have hidx : argmaxIdx ((a :: b :: t2).map rel)
          = argmaxIdx ((b :: t2).map rel) + 1 := by
        rw [hmap, argmaxIdx_cons, hS]
        simp [hcmp]
      have hr : ¬ rel m ≤ rel a := not_le.mpr hcmp
      refine ⟨m, ?_, ?_⟩
      · rw [hidx]
        exact hm
      · rw [hidx]
        have he : (a :: b :: t2).eraseIdx (argmaxIdx ((b :: t2).map rel) + 1)
            = a :: (b :: t2).eraseIdx (argmaxIdx ((b :: t2).map rel)) := rfl
        rw [he, h1, hsort]
        simp only [List.orderedInsert, hr, if_neg, not_false_iff]
        rfl
    · have hidx : argmaxIdx ((a :: b :: t2).map rel) = 0 := by
        rw [hmap, argmaxIdx_cons, hS]
        simp [hcmp]
      have hr : rel m ≤ rel a := not_lt.mp hcmp
      refine ⟨a, by rw [hidx]; rfl, ?_⟩
      rw [hidx]
      have he : (a :: b :: t2).eraseIdx 0 = b :: t2 := rfl
      rw [he, h1, hsort]
      simp only [List.orderedInsert, hr, if_pos]

theorem mmrLoop_one (sim : List ℚ → List ℚ → ℚ) (qe : List ℚ) :
    ∀ (k : ℕ) (selected remaining : List Chunk),
      mmrLoop sim qe 1 selected k remaining
      = selected ++ greedySelect (fun c => sim qe (chunkEmb c)) k remaining := by
  intro k
  induction k with
  | zero => intro sel rem; simp [mmrLoop, greedySelect]
  | succ k ih =>
    intro sel rem
    by_cases hrem : rem.isEmpty
    · simp [mmrLoop, greedySelect, hrem]
    · have hscores : (if sel.isEmpty then
          rem.map (fun c => sim qe (chunkEmb c))
        else
          rem.map (fun c =>
            (1 : ℚ) * sim qe (chunkEmb c)
              - (1 - 1) * npMax (sel.map (fun s => sim (chunkEmb c) (chunkEmb s)))))
        = rem.map (fun c => sim qe (chunkEmb c)) := by
        by_cases hsel : sel.isEmpty
        · simp [hsel]
        · simp only [hsel, Bool.false_eq_true, if_false]
          refine List.map_congr_left fun c _ => ?_
          ring
      simp only [mmrLoop, greedySelect, hrem, Bool.false_eq_true, if_false]
      rw [hscores]
      cases hget : rem.get? (argmaxIdx (rem.map fun c => sim qe (chunkEmb c))) with
      | some c =>
        dsimp only
        rw [ih]
        simp
      | none =>
        dsimp only
        simp

theorem greedySelect_eq_sort_take (rel : Chunk → ℚ) :
    ∀ (k : ℕ) (l : List Chunk),
      greedySelect rel k l
      = (List.insertionSort (fun x y => rel y ≤ rel x) l).take k := by
  intro k
  induction k with
  | zero => intro l; simp [greedySelect]
  | succ k ih =>
    intro l
    cases l with
    | nil => simp [greedySelect, List.insertionSort]
    | cons a t =>
      obtain ⟨c, hc, hsort⟩ := sort_extract rel t a
      rw [hsort]
      simp only [greedySelect, List.isEmpty_cons, Bool.false_eq_true, if_false]
      rw [hc]
      dsimp only
      rw [ih]
      rfl

/-- C7 amended: with `lambda_param = 1` the diversity term of the MMR score
vanishes, so when the guard does not fire (`top_k < |candidates|`) the
selection equals the stable descending sort of the (embedding-ensured)
candidates by similarity to the query vector, truncated to `top_k` — i.e.
descending-similarity order with ties broken by original pool order — and
the selected list is pairwise descending in similarity.  When
`|candidates| ≤ top_k`, however, `_apply_mmr` returns its input unchanged in
original order (guard at lines 1643-1644), so the claim's universal
descending-order statement fails there. -/
theorem c7_mmr_lambda_one_amended
    (sim : List ℚ → List ℚ → ℚ) (encode : String → List ℚ) (qe : List ℚ)
    (chunks : List Chunk) (top_k : ℕ) :
    (top_k < chunks.length →
      (apply_mmr sim encode qe chunks 1 top_k).1
      = (List.insertionSort
          (fun c d => sim qe (chunkEmb d) ≤ sim qe (chunkEmb c))
          (ensureEmbeddings encode chunks)).take top_k)
    ∧ (top_k < chunks.length →
      ((apply_mmr sim encode qe chunks 1 top_k).1).Pairwise
        (fun c d => sim qe (chunkEmb d) ≤ sim qe (chunkEmb c)))
    ∧ (chunks.length ≤ top_k → (apply_mmr sim encode qe chunks 1 top_k).1 = chunks) := by
  have hmain : top_k < chunks.length →
      (apply_mmr sim encode qe chunks 1 top_k).1
      = (List.insertionSort
          (fun c d => sim qe (chunkEmb d) ≤ sim qe (chunkEmb c))
          (ensureEmbeddings encode chunks)).take top_k := by
    intro h
    have hne : ¬ chunks.isEmpty := by
      cases chunks with
      | nil => simp at h
      | cons a t => simp
    have hlen : ¬ (chunks.length ≤ top_k) := not_le.mpr h
    unfold apply_mmr
    simp only [hne, hlen, Bool.false_eq_true, false_or, if_false, decide_eq_true_eq]
    rw [mmrLoop_one, greedySelect_eq_sort_take]
    simp
  refine ⟨hmain, fun h => ?_, fun h => ?_⟩
  · rw [hmain h]
    haveI : IsTotal Chunk (fun c d => sim qe (chunkEmb d) ≤ sim qe (chunkEmb c)) :=
      ⟨fun a b => le_total (sim qe (chunkEmb b)) (sim qe (chunkEmb a))⟩
    haveI : IsTrans Chunk (fun c d => sim qe (chunkEmb d) ≤ sim qe (chunkEmb c)) :=
      ⟨fun _ _ _ hab hbc => le_trans hbc hab⟩
    exact List.Pairwise.sublist (List.take_sublist _ _)
      (List.sorted_insertionSort _ _)
  · unfold apply_mmr
    simp [h]

/-- C7 counterexample: a two-candidate pool whose similarity to the query is
ascending, passed with `top_k = 5 ≥ |pool|`: MMR at `lambda_param = 1`
returns it unchanged in ascending-similarity order, not the descending order
the claim requires for every candidate list. -/
theorem c7_counterexample_guard_order :
    (apply_mmr (fun _ b => b.headD 0) (fun _ => []) [1]
      [⟨1, 1, "a", 0, some [0], none⟩, ⟨2, 1, "b", 0, some [1], none⟩] 1 5).1
    = [⟨1, 1, "a", 0, some [0], none⟩, ⟨2, 1, "b", 0, some [1], none⟩]
    ∧ (fun (_ : List ℚ) (b : List ℚ) => b.headD (0 : ℚ)) [1]
        (chunkEmb ⟨1, 1, "a", 0, some [0], none⟩)
      < (fun (_ : List ℚ) (b : List ℚ) => b.headD (0 : ℚ)) [1]
        (chunkEmb ⟨2, 1, "b", 0, some [1], none⟩)
    ∧ (apply_mmr (fun _ b => b.headD 0) (fun _ => []) [1]
      [⟨1, 1, "a", 0, some [0], none⟩, ⟨2, 1, "b", 0, some [1], none⟩] 1 5).1
    ≠ [⟨2, 1, "b", 0, some [1], none⟩, ⟨1, 1, "a", 0, some [0], none⟩] :=
  ⟨by decide, by decide, by decide⟩

/-- C7 witness: the amended theorem applied at a three-candidate pool with
`top_k = 2` (main path) and a one-candidate pool with `top_k = 3` (guard
path). -/
theorem c7_mmr_lambda_one_amended_witness :
    (2 : ℕ) < ([⟨1, 1, "a", 0, some [1], none⟩, ⟨2, 1, "b", 0, some [3], none⟩,
       ⟨3, 1, "c", 0, some [2], none⟩] : List Chunk).length
    ∧ (apply_mmr (fun _ b => b.headD 0) (fun _ => [9]) [1]
        [⟨1, 1, "a", 0, some [1], none⟩, ⟨2, 1, "b", 0, some [3], none⟩,
         ⟨3, 1, "c", 0, some [2], none⟩] 1 2).1
      = (List.insertionSort
          (fun c d => (fun _ b => b.headD (0 : ℚ)) [1] (chunkEmb d)
            ≤ (fun _ b => b.headD (0 : ℚ)) [1] (chunkEmb c))
          (ensureEmbeddings (fun _ => [9])
            [⟨1, 1, "a", 0, some [1], none⟩, ⟨2, 1, "b", 0, some [3], none⟩,
             ⟨3, 1, "c", 0, some [2], none⟩])).take 2
    ∧ (apply_mmr (fun _ b => b.headD 0) (fun _ => [9]) [1]
        [⟨1, 1, "a", 0, some [1], none⟩] 1 3).1
      = [⟨1, 1, "a", 0, some [1], none⟩] :=
  ⟨by decide,
    (c7_mmr_lambda_one_amended (fun _ b => b.headD 0) (fun _ => [9]) [1]
      [⟨1, 1, "a", 0, some [1], none⟩, ⟨2, 1, "b", 0, some [3], none⟩,
       ⟨3, 1, "c", 0, some [2], none⟩] 2).1 (by decide),
    (c7_mmr_lambda_one_amended (fun _ b => b.headD 0) (fun _ => [9]) [1]
      [⟨1, 1, "a", 0, some [1], none⟩] 3).2.2 (by decide)⟩

theorem highlen_eq (sr ss sp t : ℚ) :
    (([("rag", sr), ("sql", ss), ("prediction", sp)].filter
        (fun e => e.2 ≥ t)).map Prod.fst).length
    = (if t ≤ sr then 1 else 0) + (if t ≤ ss then 1 else 0)
      + ((if t ≤ sp then 1 else 0) : ℕ) := by
  by_cases h1 : t ≤ sr <;> by_cases h2 : t ≤ ss <;> by_cases h3 : t ≤ sp <;>
    simp [List.filter, h1, h2, h3, ge_iff_le]

theorem pymax_eq (sr ss sp : ℚ) :
    (if sp > (if ss > sr then (("sql" : String), ss) else ("rag", sr)).2
      then (("prediction" : String), sp)
      else (if ss > sr then ("sql", ss) else ("rag", sr))).2
    = max (max sr ss) sp := by
  by_cases h4 : ss > sr
  · by_cases h5 : sp > ss
    · simp only [h4, if_pos, h5]
      rw [max_eq_right (le_of_lt h4), max_eq_right (le_of_lt h5)]
    · simp only [h4, if_pos, h5, if_neg, not_false_iff]
      rw [max_eq_right (le_of_lt h4), max_eq_left (not_lt.mp h5)]
  · by_cases h6 : sp > sr
    · simp only [h4, if_neg, not_false_iff, h6, if_pos]
      rw [max_eq_left (not_lt.mp h4), max_eq_right (le_of_lt h6)]
    · simp only [h4, h6, if_neg, not_false_iff]
      rw [max_eq_left (not_lt.mp h4), max_eq_left (not_lt.mp h6)]

/-- C6: `classify_query_type` returns type "hybrid" exactly when more than
one category score reaches the threshold; its reported confidence is always
the arg-max score (the maximum of the three category scores); otherwise the
type is the arg-max category, demoted to "rag" whenever the arg-max score is
below the threshold; and a query whose best score is 0.4 against threshold
0.6 yields `{type: rag, confidence: 0.4}`. -/
theorem c6_classify_query_type_policy :
    (∀ score_rag score_sql score_pred threshold : ℚ,
      ((classify_query_type score_rag score_sql score_pred threshold).type = "hybrid"
        ↔ 1 < (if threshold ≤ score_rag then 1 else 0)
            + (if threshold ≤ score_sql then 1 else 0)
            + ((if threshold ≤ score_pred then 1 else 0) : ℕ))
      ∧ (classify_query_type score_rag score_sql score_pred threshold).confidence
          = max (max score_rag score_sql) score_pred
      ∧ (¬ (1 < (if threshold ≤ score_rag then 1 else 0)
            + (if threshold ≤ score_sql then 1 else 0)
            + ((if threshold ≤ score_pred then 1 else 0) : ℕ)) →
          (classify_query_type score_rag score_sql score_pred threshold).confidence
            < threshold →
          (classify_query_type score_rag score_sql score_pred threshold).type = "rag")
      ∧ (¬ (1 < (if threshold ≤ score_rag then 1 else 0)
            + (if threshold ≤ score_sql then 1 else 0)
            + ((if threshold ≤ score_pred then 1 else 0) : ℕ)) →
          threshold ≤ (classify_query_type score_rag score_sql score_pred threshold).confidence →
          ((classify_query_type score_rag score_sql score_pred threshold).type,
            (classify_query_type score_rag score_sql score_pred threshold).confidence)
            = ("rag", score_rag)
          ∨ ((classify_query_type score_rag score_sql score_pred threshold).type,
              (classify_query_type score_rag score_sql score_pred threshold).confidence)
            = ("sql", score_sql)
          ∨ ((classify_query_type score_rag score_sql score_pred threshold).type,
              (classify_query_type score_rag score_sql score_pred threshold).confidence)
            = ("prediction", score_pred)))
    ∧ classify_query_type 0.4 0.3 0.2 0.6 = ⟨"rag", 0.4⟩ := by
  refine ⟨fun sr ss sp t => ?_, by simp [classify_query_type]; norm_num⟩
  have hconf : (classify_query_type sr ss sp t).confidence = max (max sr ss) sp := by
    unfold classify_query_type
    dsimp only
    split_ifs <;> dsimp only <;> (rw [max_def, max_def]; split_ifs <;> linarith)
  refine ⟨?_, hconf, ?_, ?_⟩
  · unfold classify_query_type
    dsimp only
    rw [highlen_eq]
    by_cases hc : 1 < (if t ≤ sr then 1 else 0) + (if t ≤ ss then 1 else 0)
        + ((if t ≤ sp then 1 else 0) : ℕ)
    · simp only [hc, if_pos]
    · simp only [hc, if_neg, not_false_iff]
      split_ifs <;> simp_all
  · intro hc hlt
    rw [hconf] at hlt
    unfold classify_query_type
    dsimp only
    rw [highlen_eq, pymax_eq]
    simp only [hc, if_neg, not_false_iff, hlt, if_pos]
  · intro hc hge
    rw [hconf] at hge
    have hnlt : ¬ (max (max sr ss) sp < t) := not_lt.mpr hge
    have hchar : classify_query_type sr ss sp t
        = ⟨(if sp > (if ss > sr then (("sql" : String), ss) else ("rag", sr)).2
            then (("prediction" : String), sp)
            else (if ss > sr then ("sql", ss) else ("rag", sr))).1,
           (if sp > (if ss > sr then (("sql" : String), ss) else ("rag", sr)).2
            then (("prediction" : String), sp)
            else (if ss > sr then ("sql", ss) else ("rag", sr))).2⟩ := by
      unfold classify_query_type
      dsimp only
      rw [highlen_eq, pymax_eq]
      simp only [hc, if_neg, not_false_iff, hnlt]
    rw [hchar]
    split_ifs with h5 h4 h4 <;> dsimp only
    · exact Or.inr (Or.inr rfl)
    · exact Or.inr (Or.inl rfl)
    · exact Or.inr (Or.inr rfl)
    · exact Or.inl rfl

/-- C6 witness: the policy theorem applied at concrete score triples — a
below-threshold arg-max demotes to "rag", and an above-threshold unique
arg-max reports its own category with its score as confidence. -/
theorem c6_classify_query_type_policy_witness :
    (classify_query_type 1 0 0 2).type = "rag"
    ∧ (((classify_query_type 0 3 1 2).type,
          (classify_query_type 0 3 1 2).confidence) = ("rag", 0)
       ∨ ((classify_query_type 0 3 1 2).type,
          (classify_query_type 0 3 1 2).confidence) = ("sql", 3)
       ∨ ((classify_query_type 0 3 1 2).type,
          (classify_query_type 0 3 1 2).confidence) = ("prediction", 1)) :=
  ⟨(c6_classify_query_type_policy.1 1 0 0 2).2.2.1 (by decide) (by decide),
   (c6_classify_query_type_policy.1 0 3 1 2).2.2.2 (by decide) (by decide)⟩
